import Mathlib

/-!
Verification of the inventory system (`inventory_system.py`).

The module keeps a global dict `stock_data` mapping item names (Python `str`)
to quantities (Python `int`/`float`), with operations `add_item`,
`remove_item`, `get_qty`, `check_low_items`, `load_data`, `save_data`.

Embedding choices:
* A Python dict is an insertion-ordered association list with unique keys
  (`Dict := List (String × PyVal)`); `dictSet` updates an existing key in
  place or appends a fresh one at the end, `dictDel` removes a key, matching
  CPython dict semantics.
* Python numbers are modelled exactly as rationals (`ℚ`); a stored value is a
  `PyVal` (number, string, or `None`) so that type errors are representable.
* Exceptions are explicit: `add_item` returns its `ValueError`/`TypeError`
  outcome in an `Option PyError` component (the source raises before any
  mutation, so the returned state/log equal the inputs on error);
  `remove_item` never raises (it catches `KeyError`/`TypeError` and prints a
  diagnostic, modelled as an `Option Report`).
* The filesystem is a map from paths to optional file contents; a file is
  either text that parses as JSON (carrying its parse) or text that does not,
  which is exactly the distinction `json.load` acts on.
* `datetime.now()` is an opaque caller-supplied timestamp string.
-/

namespace Inventory

/-- A Python value as it can appear as an inventory quantity or argument:
a number (`int`/`float`, modelled exactly as `ℚ`), a string, or `None`. -/
inductive PyVal where
  | num (q : ℚ)
  | str (s : String)
  | null
  deriving DecidableEq, Repr

/-- `isinstance(x, str)`. -/
def PyVal.isStr : PyVal → Bool
  | .str _ => true
  | _ => false

/-- `isinstance(x, (int, float))`. -/
def PyVal.isNum : PyVal → Bool
  | .num _ => true
  | _ => false

/-- Python `+` on the modelled values: number addition and string
concatenation succeed; every other combination raises `TypeError`,
modelled as `Option.none`. -/
def pyAdd : PyVal → PyVal → Option PyVal
  | .num a, .num b => some (.num (a + b))
  | .str a, .str b => some (.str (a ++ b))
  | _, _ => Option.none

/-- Python `-` on the modelled values: only number subtraction succeeds;
everything else raises `TypeError`, modelled as `Option.none`. -/
def pySub : PyVal → PyVal → Option PyVal
  | .num a, .num b => some (.num (a - b))
  | _, _ => Option.none

/-- Python `x <= 0` for a value known to be a number. -/
def pyLeZero : PyVal → Bool
  | .num q => decide (q ≤ 0)
  | _ => false

/-- Python `x < t` against a numeric threshold: defined for numbers,
`TypeError` (`Option.none`) otherwise. -/
def pyLtNum : PyVal → ℚ → Option Bool
  | .num q, t => some (decide (q < t))
  | _, _ => Option.none

/-- The inventory mapping `stock_data`: an insertion-ordered association
list from item name to stored value. -/
abbrev Dict := List (String × PyVal)

/-- `stock_data[item]` / `stock_data.get(item)`: first entry with the key. -/
def dictGet : Dict → String → Option PyVal
  | [], _ => Option.none
  | (a, v) :: rest, k => if a = k then some v else dictGet rest k

/-- `item in stock_data`. -/
def dictHas : Dict → String → Bool
  | [], _ => false
  | (a, _) :: rest, k => a = k || dictHas rest k

/-- Overwrite the value stored at an existing key, keeping its position. -/
def dictUpdate : Dict → String → PyVal → Dict
  | [], _, _ => []
  | (a, v) :: rest, k, w =>
      if a = k then (k, w) :: dictUpdate rest k w else (a, v) :: dictUpdate rest k w

/-- `stock_data[item] = v`: update in place when the key exists, append a
fresh entry at the end otherwise (CPython dict insertion order). -/
def dictSet (st : Dict) (k : String) (v : PyVal) : Dict :=
  if dictHas st k then dictUpdate st k v else st ++ [(k, v)]

/-- `del stock_data[item]`. -/
def dictDel : Dict → String → Dict
  | [], _ => []
  | (a, v) :: rest, k => if a = k then dictDel rest k else (a, v) :: dictDel rest k

/-- The exceptions the module can raise. -/
inductive PyError where
  | valueError
  | typeError
  deriving DecidableEq, Repr

/-- The diagnostics the module prints instead of raising. -/
inductive Report where
  | notFound (item : String)
  | invalidQty
  | fileNotFound (path : String)
  | decodeError (path : String)
  deriving DecidableEq, Repr

/-- The log line `f"{datetime.now()}: Added {qty} of {item}"`. -/
def logLine (ts : String) (qty : PyVal) (item : String) : String :=
  ts ++ ": Added " ++ reprStr qty ++ " of " ++ item

/-- `add_item(item, qty, logs)`: type-check first (raising `ValueError`
before touching any state), then `stock_data[item] = stock_data.get(item, 0)
+ qty` and append a log line.  Returns the new mapping, the new log, and the
raised exception if any. -/
def add_item (st : Dict) (item qty : PyVal) (logs : List String) (ts : String) :
    Dict × List String × Option PyError :=
  match item, qty with
  | .str s, .num q =>
      match pyAdd ((dictGet st s).getD (.num 0)) (.num q) with
      | some v => (dictSet st s v, logs ++ [logLine ts (.num q) s], Option.none)
      | Option.none => (st, logs, some .typeError)
  | _, _ => (st, logs, some .valueError)

/-- `remove_item(item, qty)`: `stock_data[item] -= qty`, deleting the entry
when the new value is `≤ 0`; a `KeyError` (absent key) is caught and printed
as "not found", a `TypeError` (bad subtraction) as "invalid quantity type".
Never raises. -/
def remove_item (st : Dict) (item : String) (qty : PyVal) : Dict × Option Report :=
  match dictGet st item with
  | Option.none => (st, some (.notFound item))
  | some v =>
      match pySub v qty with
      | Option.none => (st, some .invalidQty)
      | some v2 =>
          let st2 := dictSet st item v2
          if pyLeZero v2 then (dictDel st2 item, Option.none) else (st2, Option.none)

/-- `get_qty(item)`: `stock_data.get(item, 0)`. -/
def get_qty (st : Dict) (item : String) : PyVal :=
  (dictGet st item).getD (.num 0)

/-- `check_low_items(threshold)`: the comprehension
`[item for item, qty in stock_data.items() if qty < threshold]`; a
non-numeric stored value makes the comparison raise `TypeError`. -/
def check_low_items (st : Dict) (threshold : ℚ) : Except PyError (List String) :=
  match st with
  | [] => .ok []
  | (k, v) :: rest =>
      match pyLtNum v threshold with
      | Option.none => .error .typeError
      | some b =>
          match check_low_items rest threshold with
          | .ok l => .ok (if b then k :: l else l)
          | .error e => .error e

/-- A JSON document (numbers modelled exactly). -/
inductive Json where
  | num (q : ℚ)
  | str (s : String)
  | bool (b : Bool)
  | null
  | arr (xs : List Json)
  | obj (kvs : List (String × Json))

/-- A file's contents, as far as `json.load` distinguishes them: text that
parses to a JSON document, or text that fails to parse. -/
inductive FileContent where
  | jsonText (j : Json)
  | invalidText

/-- The filesystem: what, if anything, each path holds. -/
abbrev FS := String → Option FileContent

/-- `json.dump` of a stored value. -/
def jsonOfVal : PyVal → Json
  | .num q => .num q
  | .str s => .str s
  | .null => .null

/-- `json.dump(stock_data, file, indent=4)`: the JSON object written. -/
def jsonOfDict (st : Dict) : Json :=
  .obj (st.map fun p => (p.1, jsonOfVal p.2))

/-- Read a JSON value back as a stored value (inverse of `jsonOfVal`);
documents outside the model's value range give `Option.none`. -/
def valOfJson : Json → Option PyVal
  | .num q => some (.num q)
  | .str s => some (.str s)
  | .null => some .null
  | _ => Option.none

/-- Read a JSON object's entries back as a mapping. -/
def dictOfJsonEntries : List (String × Json) → Option Dict
  | [] => some []
  | (k, j) :: rest =>
      match valOfJson j, dictOfJsonEntries rest with
      | some v, some d => some ((k, v) :: d)
      | _, _ => Option.none

/-- Read a JSON document back as a mapping; non-objects give `Option.none`. -/
def dictOfJson : Json → Option Dict
  | .obj kvs => dictOfJsonEntries kvs
  | _ => Option.none

/-- `load_data(file_path)`: `json.load` of the file, `{}` plus a printed
diagnostic when the file is missing (`FileNotFoundError`) or fails to parse
(`json.JSONDecodeError`).  Never raises. -/
def load_data (fs : FS) (path : String) : Json × Option Report :=
  match fs path with
  | Option.none => (.obj [], some (.fileNotFound path))
  | some .invalidText => (.obj [], some (.decodeError path))
  | some (.jsonText j) => (j, Option.none)

/-- `save_data(file_path)`: write the current mapping as JSON at the path,
overwriting whatever was there. -/
def save_data (st : Dict) (fs : FS) (path : String) : FS :=
  fun p => if p = path then some (.jsonText (jsonOfDict st)) else fs p

/-- Every stored value is a number — the shape of every inventory state the
spec's data model describes. -/
def AllNum (st : Dict) : Prop :=
  ∀ p ∈ st, p.2.isNum = true

instance (st : Dict) : Decidable (AllNum st) := by
  unfold AllNum; infer_instance

/-- The keys of the mapping are pairwise distinct, as in a Python dict. -/
def KeysNodup (st : Dict) : Prop :=
  (st.map Prod.fst).Nodup

instance (st : Dict) : Decidable (KeysNodup st) := by
  unfold KeysNodup; infer_instance

/-- The numeric quantity stored for an item, `0` when absent (or when the
stored value is not a number). -/
def qtyOf (st : Dict) (item : String) : ℚ :=
  match dictGet st item with
  | some (.num q) => q
  | _ => 0

/-- The numeric reading of a stored value. -/
def numOf : PyVal → ℚ
  | .num q => q
  | _ => 0

/-- The names of the entries strictly below the threshold, in insertion
order — the reference result of `check_low_items` on numeric states. -/
def lowNames (st : Dict) (t : ℚ) : List String :=
  (st.filter fun p => decide (numOf p.2 < t)).map Prod.fst

/-- No entry of the mapping has a non-positive stored value. -/
def NoNonPos (st : Dict) : Prop :=
  ∀ p ∈ st, pyLeZero p.2 = false

instance (st : Dict) : Decidable (NoNonPos st) := by
  unfold NoNonPos; infer_instance

/-! ### Association-list lemmas -/

theorem isNum_iff (v : PyVal) : v.isNum = true ↔ ∃ q, v = .num q := by
  cases v <;> simp [PyVal.isNum]

theorem dictGet_dictUpdate (st : Dict) (k : String) (v : PyVal) :
    dictGet (dictUpdate st k v) k = if dictHas st k then some v else Option.none := by
  induction st with
  | nil => rfl
  | cons p rest ih =>
      obtain ⟨a, w⟩ := p
      by_cases h : a = k <;> simp [dictUpdate, dictGet, dictHas, h, ih]

theorem dictGet_dictUpdate_other (st : Dict) (k : String) (v : PyVal) (j : String)
    (hj : j ≠ k) : dictGet (dictUpdate st k v) j = dictGet st j := by
  induction st with
  | nil => rfl
  | cons p rest ih =>
      obtain ⟨a, w⟩ := p
      by_cases h : a = k
      · subst h
        simp [dictUpdate, dictGet, Ne.symm hj, ih]
      · simp [dictUpdate, dictGet, h, ih]

theorem dictGet_append (st l : Dict) (k : String) :
    dictGet (st ++ l) k =
      match dictGet st k with
      | some v => some v
      | Option.none => dictGet l k := by
  induction st with
  | nil => rfl
  | cons p rest ih =>
      obtain ⟨a, w⟩ := p
      by_cases h : a = k <;> simp [dictGet, h, ih]

theorem dictHas_eq_false_iff (st : Dict) (k : String) :
    dictHas st k = false ↔ ∀ p ∈ st, p.1 ≠ k := by
  induction st with
  | nil => simp [dictHas]
  | cons p rest ih =>
      obtain ⟨a, w⟩ := p
      simp [dictHas, ih]

theorem dictGet_eq_none_iff (st : Dict) (k : String) :
    dictGet st k = Option.none ↔ ∀ p ∈ st, p.1 ≠ k := by
  induction st with
  | nil => simp [dictGet]
  | cons p rest ih =>
      obtain ⟨a, w⟩ := p
      by_cases h : a = k <;> simp [dictGet, h, ih]

theorem dictGet_set_self (st : Dict) (k : String) (v : PyVal) :
    dictGet (dictSet st k v) k = some v := by
  unfold dictSet
  by_cases h : dictHas st k
  · simp [h, dictGet_dictUpdate]
  · have hnone : dictGet st k = Option.none :=
      (dictGet_eq_none_iff st k).2 ((dictHas_eq_false_iff st k).1 (by simpa using h))
    simp [h, dictGet_append, hnone, dictGet]

theorem dictGet_set_other (st : Dict) (k : String) (v : PyVal) (j : String)
    (hj : j ≠ k) : dictGet (dictSet st k v) j = dictGet st j := by
  unfold dictSet
  by_cases h : dictHas st k = true
  · rw [if_pos h]
    exact dictGet_dictUpdate_other st k v j hj
  · rw [if_neg h]
    cases hg : dictGet st j with
    | none =>
        rw [dictGet_append, hg]
        simp [dictGet, Ne.symm hj]
    | some w =>
        rw [dictGet_append, hg]

theorem dictGet_del_self (st : Dict) (k : String) :
    dictGet (dictDel st k) k = Option.none := by
  induction st with
  | nil => rfl
  | cons p rest ih =>
      obtain ⟨a, w⟩ := p
      by_cases h : a = k <;> simp [dictDel, dictGet, h, ih]

theorem dictGet_del_other (st : Dict) (k j : String) (hj : j ≠ k) :
    dictGet (dictDel st k) j = dictGet st j := by
  induction st with
  | nil => rfl
  | cons p rest ih =>
      obtain ⟨a, w⟩ := p
      by_cases h : a = k
      · subst h
        simp [dictDel, dictGet, Ne.symm hj, ih]
      · simp [dictDel, dictGet, h, ih]

theorem mem_dictUpdate (st : Dict) (k : String) (v : PyVal) (p : String × PyVal)
    (h : p ∈ dictUpdate st k v) : p ∈ st ∨ p = (k, v) := by
  induction st with
  | nil => simp [dictUpdate] at h
  | cons q rest ih =>
      obtain ⟨a, w⟩ := q
      by_cases ha : a = k
      · simp only [dictUpdate, ha, if_true, List.mem_cons] at h
        rcases h with h | h
        · exact Or.inr h
        · rcases ih h with h | h
          · exact Or.inl (List.mem_cons_of_mem _ h)
          · exact Or.inr h
      · simp only [dictUpdate, ha, if_false, List.mem_cons] at h
        rcases h with h | h
        · exact Or.inl (by simp [h])
        · rcases ih h with h | h
          · exact Or.inl (List.mem_cons_of_mem _ h)
          · exact Or.inr h

theorem mem_dictSet (st : Dict) (k : String) (v : PyVal) (p : String × PyVal)
    (h : p ∈ dictSet st k v) : p ∈ st ∨ p = (k, v) := by
  unfold dictSet at h
  by_cases hh : dictHas st k = true
  · rw [if_pos hh] at h
    exact mem_dictUpdate st k v p h
  · rw [if_neg hh] at h
    rcases List.mem_append.1 h with h | h
    · exact Or.inl h
    · exact Or.inr (by simpa using h)

theorem mem_dictDel (st : Dict) (k : String) (p : String × PyVal)
    (h : p ∈ dictDel st k) : p ∈ st := by
  induction st with
  | nil => simp [dictDel] at h
  | cons q rest ih =>
      obtain ⟨a, w⟩ := q
      by_cases ha : a = k
      · simp only [dictDel, ha, if_true] at h
        exact List.mem_cons_of_mem _ (ih h)
      · simp only [dictDel, ha, if_false, List.mem_cons] at h
        rcases h with h | h
        · simp [h]
        · exact List.mem_cons_of_mem _ (ih h)

theorem allNum_dictSet_num (st : Dict) (k : String) (q : ℚ) (h : AllNum st) :
    AllNum (dictSet st k (.num q)) := by
  intro p hp
  rcases mem_dictSet st k (.num q) p hp with hm | hm
  · exact h p hm
  · simp [hm, PyVal.isNum]

theorem allNum_dictDel (st : Dict) (k : String) (h : AllNum st) :
    AllNum (dictDel st k) := fun p hp => h p (mem_dictDel st k p hp)

theorem mem_dictSet_self (st : Dict) (k : String) (v : PyVal) :
    (k, v) ∈ dictSet st k v := by
  unfold dictSet
  by_cases hh : dictHas st k
  · simp only [hh, if_true]
    induction st with
    | nil => simp [dictHas] at hh
    | cons p rest ih =>
        obtain ⟨a, w⟩ := p
        by_cases ha : a = k
        · simp [dictUpdate, ha]
        · simp only [dictHas, ha, decide_False, Bool.false_or] at hh
          simp [dictUpdate, ha, ih hh]
  · simp [hh]

theorem dictGet_eq_some_of_mem (st : Dict) (k : String) (v : PyVal)
    (hnd : KeysNodup st) (hmem : (k, v) ∈ st) : dictGet st k = some v := by
  induction st with
  | nil => simp at hmem
  | cons p rest ih =>
      obtain ⟨a, w⟩ := p
      have hnotin : a ∉ rest.map Prod.fst := by
        simp only [KeysNodup, List.map_cons, List.nodup_cons] at hnd
        exact hnd.1
      have hnd' : KeysNodup rest := by
        simp only [KeysNodup, List.map_cons, List.nodup_cons] at hnd
        exact hnd.2
      rcases List.mem_cons.1 hmem with h | h
      · have h1 : k = a := congrArg Prod.fst h
        have h2 : v = w := congrArg Prod.snd h
        simp [dictGet, h1.symm, h2]
      · have ha : ¬ a = k := by
          intro he
          subst he
          exact hnotin (List.mem_map.2 ⟨⟨_, v⟩, h, rfl⟩)
        simp [dictGet, ha, ih hnd' h]

theorem mem_of_dictGet_eq_some (st : Dict) (k : String) (v : PyVal)
    (h : dictGet st k = some v) : (k, v) ∈ st := by
  induction st with
  | nil => simp [dictGet] at h
  | cons p rest ih =>
      obtain ⟨a, w⟩ := p
      by_cases ha : a = k
      · subst ha
        have hw : w = v := by simpa [dictGet] using h
        subst hw
        exact List.mem_cons_self _ _
      · have h' : dictGet rest k = some v := by simpa [dictGet, ha] using h
        exact List.mem_cons_of_mem _ (ih h')

/-! ### `check_low_items` lemmas -/

theorem check_low_items_eq_lowNames (st : Dict) (t : ℚ) (h : AllNum st) :
    check_low_items st t = .ok (lowNames st t) := by
  induction st with
  | nil => rfl
  | cons p rest ih =>
      obtain ⟨a, w⟩ := p
      obtain ⟨q, rfl⟩ := (isNum_iff w).1 (h (a, w) (List.mem_cons_self _ _))
      have hrest : AllNum rest := fun p hp => h p (List.mem_cons_of_mem _ hp)
      by_cases hq : q < t <;>
        simp [check_low_items, pyLtNum, ih hrest, lowNames, numOf, hq]

theorem mem_lowNames_iff_exists (st : Dict) (t : ℚ) (k : String) :
    k ∈ lowNames st t ↔ ∃ v, (k, v) ∈ st ∧ numOf v < t := by
  constructor
  · intro h
    simp only [lowNames, List.mem_map, List.mem_filter, decide_eq_true_eq] at h
    obtain ⟨⟨a, v⟩, ⟨hmem, hlt⟩, rfl⟩ := h
    exact ⟨v, hmem, hlt⟩
  · rintro ⟨v, hmem, hlt⟩
    exact List.mem_map.2 ⟨(k, v), List.mem_filter.2 ⟨hmem, by simpa using hlt⟩, rfl⟩

/-! ### Claim theorems -/

/-- C1: after a successful `add_item(item, qty)`, `get_qty(item)` equals the
quantity stored before the call (`0` if the item was absent) plus `qty`, and
every other item's quantity is unchanged. -/
theorem add_item_get_qty (st : Dict) (s : String) (q : ℚ) (logs : List String)
    (ts : String) (h : (add_item st (.str s) (.num q) logs ts).2.2 = Option.none) :
    get_qty (add_item st (.str s) (.num q) logs ts).1 s = .num (qtyOf st s + q) ∧
    ∀ j, j ≠ s → get_qty (add_item st (.str s) (.num q) logs ts).1 j = get_qty st j := by
  cases hg : dictGet st s with
  | none =>
      have hadd : add_item st (.str s) (.num q) logs ts =
          (dictSet st s (.num (0 + q)), logs ++ [logLine ts (.num q) s], Option.none) := by
        simp [add_item, hg, pyAdd]
      constructor
      · rw [hadd]
        simp [get_qty, dictGet_set_self, qtyOf, hg]
      · intro j hj
        rw [hadd]
        simp [get_qty, dictGet_set_other st s _ j hj]
  | some v =>
      cases v with
      | num p =>
          have hadd : add_item st (.str s) (.num q) logs ts =
              (dictSet st s (.num (p + q)), logs ++ [logLine ts (.num q) s], Option.none) := by
            simp [add_item, hg, pyAdd]
          constructor
          · rw [hadd]
            simp [get_qty, dictGet_set_self, qtyOf, hg]
          · intro j hj
            rw [hadd]
            simp [get_qty, dictGet_set_other st s _ j hj]
      | str s2 =>
          exfalso
          simp [add_item, hg, pyAdd] at h
      | null =>
          exfalso
          simp [add_item, hg, pyAdd] at h

/-- C1 witness: adding 3 to an item stored with quantity 2. -/
theorem add_item_get_qty_witness :
    get_qty (add_item [("a", .num 2)] (.str "a") (.num 3) [] "t").1 "a" =
        .num (qtyOf [("a", .num 2)] "a" + 3) ∧
    ∀ j, j ≠ "a" →
      get_qty (add_item [("a", .num 2)] (.str "a") (.num 3) [] "t").1 j =
        get_qty [("a", .num 2)] j :=
  add_item_get_qty [("a", .num 2)] "a" 3 [] "t" (by decide)

/-- C5 counterexample: `add_item("", 5)` raises nothing and stores the
empty-string item, so an empty-string item is not governed by the
`InvalidArgument` failure condition. -/
theorem add_item_empty_string_ok :
    (add_item [] (.str "") (.num 5) [] "t").2.2 = Option.none ∧
    (add_item [] (.str "") (.num 5) [] "t").1 = [("", .num 5)] := by
  constructor
  · rfl
  · show dictSet [] "" (.num (0 + 5)) = [("", .num 5)]
    norm_num [dictSet, dictHas, dictUpdate]

/-- C5 amended: `add_item(item, qty, log)` raises `ValueError`
(`InvalidArgument`) if and only if `item` is not a string or `qty` is not a
number, and on such a failure the mapping and the supplied log are
unchanged.  An empty string is a string, so it passes the check. -/
theorem add_item_type_check (st : Dict) (item qty : PyVal) (logs : List String)
    (ts : String) :
    ((add_item st item qty logs ts).2.2 = some .valueError ↔
      (item.isStr = false ∨ qty.isNum = false)) ∧
    ((add_item st item qty logs ts).2.2 = some .valueError →
      (add_item st item qty logs ts).1 = st ∧
      (add_item st item qty logs ts).2.1 = logs) := by
  cases item with
  | str s =>
      cases qty with
      | num q =>
          cases hp : pyAdd ((dictGet st s).getD (.num 0)) (.num q) with
          | none => simp [add_item, hp, PyVal.isStr, PyVal.isNum]
          | some v => simp [add_item, hp, PyVal.isStr, PyVal.isNum]
      | str s2 => simp [add_item, PyVal.isStr, PyVal.isNum]
      | null => simp [add_item, PyVal.isStr, PyVal.isNum]
  | num q => cases qty <;> simp [add_item, PyVal.isStr, PyVal.isNum]
  | null => cases qty <;> simp [add_item, PyVal.isStr, PyVal.isNum]

/-- C5 amended witness: a `None` item with numeric quantity raises
`ValueError` and leaves state and log unchanged. -/
theorem add_item_type_check_witness :
    ((add_item [("a", .num 1)] .null (.num 2) ["l"] "t").2.2 = some .valueError ↔
      (PyVal.null.isStr = false ∨ (PyVal.num 2).isNum = false)) ∧
    ((add_item [("a", .num 1)] .null (.num 2) ["l"] "t").2.2 = some .valueError →
      (add_item [("a", .num 1)] .null (.num 2) ["l"] "t").1 = [("a", .num 1)] ∧
      (add_item [("a", .num 1)] .null (.num 2) ["l"] "t").2.1 = ["l"]) :=
  add_item_type_check [("a", .num 1)] .null (.num 2) ["l"] "t"

/-- C4: `remove_item` on an absent item, or with a non-numeric quantity,
raises no exception (its return type carries no exception at all), leaves
the mapping unchanged, and reports the corresponding condition: "not found"
when the item is absent (the `KeyError` is hit before the subtraction), and
"invalid quantity type" when the item is present. -/
theorem remove_item_report_noop (st : Dict) (item : String) (qty : PyVal)
    (h : dictGet st item = Option.none ∨ qty.isNum = false) :
    (remove_item st item qty).1 = st ∧
    (remove_item st item qty).2 ≠ Option.none ∧
    (dictGet st item = Option.none →
      (remove_item st item qty).2 = some (.notFound item)) ∧
    (dictGet st item ≠ Option.none →
      (remove_item st item qty).2 = some .invalidQty) := by
  cases hg : dictGet st item with
  | none => simp [remove_item, hg]
  | some v =>
      have hq : qty.isNum = false := by
        rcases h with h | h
        · rw [hg] at h
          exact absurd h (by simp)
        · exact h
      have hsub : pySub v qty = Option.none := by
        cases v <;> cases qty <;> simp_all [pySub, PyVal.isNum]
      simp [remove_item, hg, hsub]

/-- C4 witness: removing an absent item "b" from a one-item inventory. -/
theorem remove_item_report_noop_witness :
    (remove_item [("a", .num 1)] "b" (.num 1)).1 = [("a", .num 1)] ∧
    (remove_item [("a", .num 1)] "b" (.num 1)).2 ≠ Option.none ∧
    (dictGet [("a", .num 1)] "b" = Option.none →
      (remove_item [("a", .num 1)] "b" (.num 1)).2 = some (.notFound "b")) ∧
    (dictGet [("a", .num 1)] "b" ≠ Option.none →
      (remove_item [("a", .num 1)] "b" (.num 1)).2 = some .invalidQty) :=
  remove_item_report_noop [("a", .num 1)] "b" (.num 1) (Or.inl (by decide))

/-- C3: `remove_item(item, qty)` on an item stored with numeric quantity
`q`, with `q - qty ≤ 0`, deletes the entry: `get_qty(item)` then returns
`0` and `item` is absent from `check_low_items(t)` for every threshold. -/
theorem remove_item_nonpos_deletes (st : Dict) (item : String) (q qty : ℚ)
    (hnum : AllNum st) (hget : dictGet st item = some (.num q)) (hle : q - qty ≤ 0) :
    dictGet (remove_item st item (.num qty)).1 item = Option.none ∧
    get_qty (remove_item st item (.num qty)).1 item = .num 0 ∧
    ∀ t : ℚ, ∃ l, check_low_items (remove_item st item (.num qty)).1 t = .ok l ∧
      item ∉ l := by
  have hrm : (remove_item st item (.num qty)).1 =
      dictDel (dictSet st item (.num (q - qty))) item := by
    simp [remove_item, hget, pySub, pyLeZero, hle]
  have hgone : dictGet (remove_item st item (.num qty)).1 item = Option.none := by
    rw [hrm]
    exact dictGet_del_self _ _
  refine ⟨hgone, ?_, ?_⟩
  · rw [get_qty, hgone]
    rfl
  · intro t
    have hnum' : AllNum (remove_item st item (.num qty)).1 := by
      rw [hrm]
      exact allNum_dictDel _ _ (allNum_dictSet_num st item (q - qty) hnum)
    refine ⟨_, check_low_items_eq_lowNames _ t hnum', ?_⟩
    intro hmem
    obtain ⟨v, hvmem, _⟩ := (mem_lowNames_iff_exists _ t item).1 hmem
    exact (dictGet_eq_none_iff _ item).1 hgone (item, v) hvmem rfl

/-- C3 witness: removing 7 from an item stored with quantity 5. -/
theorem remove_item_nonpos_deletes_witness :
    dictGet (remove_item [("a", .num 5)] "a" (.num 7)).1 "a" = Option.none ∧
    get_qty (remove_item [("a", .num 5)] "a" (.num 7)).1 "a" = .num 0 ∧
    ∀ t : ℚ, ∃ l, check_low_items (remove_item [("a", .num 5)] "a" (.num 7)).1 t = .ok l ∧
      "a" ∉ l :=
  remove_item_nonpos_deletes [("a", .num 5)] "a" 5 7 (by decide) (by decide)
    (by norm_num)

/-- C6: `check_low_items(t)` returns exactly the item names whose stored
quantity is strictly below `t`, in the mapping's insertion order (the
filtered list), and an item is listed iff its stored quantity is `< t` (so
quantity equal to `t` is excluded). -/
theorem check_low_items_spec (st : Dict) (t : ℚ) (hnum : AllNum st)
    (hnd : KeysNodup st) :
    check_low_items st t = .ok (lowNames st t) ∧
    ∀ item, item ∈ lowNames st t ↔ ∃ q, dictGet st item = some (.num q) ∧ q < t := by
  refine ⟨check_low_items_eq_lowNames st t hnum, fun item => ?_⟩
  rw [mem_lowNames_iff_exists]
  constructor
  · rintro ⟨v, hmem, hlt⟩
    obtain ⟨q, rfl⟩ := (isNum_iff v).1 (hnum _ hmem)
    exact ⟨q, dictGet_eq_some_of_mem st item _ hnd hmem, by simpa [numOf] using hlt⟩
  · rintro ⟨q, hget, hlt⟩
    exact ⟨.num q, mem_of_dictGet_eq_some st item _ hget, by simpa [numOf] using hlt⟩

/-- C6 witness: the spec's scenario state, apple at 7 and banana at 2 with
threshold 5. -/
theorem check_low_items_spec_witness :
    check_low_items [("apple", .num 7), ("banana", .num 2)] 5 =
      .ok (lowNames [("apple", .num 7), ("banana", .num 2)] 5) ∧
    ∀ item, item ∈ lowNames [("apple", .num 7), ("banana", .num 2)] 5 ↔
      ∃ q, dictGet [("apple", .num 7), ("banana", .num 2)] item = some (.num q) ∧
        q < 5 :=
  check_low_items_spec [("apple", .num 7), ("banana", .num 2)] 5 (by decide) (by decide)

/-- C8 counterexample: from the reachable state `add_item("a", 0)` produces,
the no-op `remove_item("b", 1)` leaves the entry `("a", 0)` — quantity
`≤ 0` — in the mapping, so a state immediately after a remove operation can
hold a non-positive entry. -/
theorem remove_item_nonpos_persists :
    (remove_item (add_item [] (.str "a") (.num 0) [] "t").1 "b" (.num 1)).1 =
      [("a", .num 0)] ∧
    ¬ NoNonPos (remove_item (add_item [] (.str "a") (.num 0) [] "t").1 "b" (.num 1)).1 := by
  have h1 : (add_item [] (.str "a") (.num 0) [] "t").1 = [("a", .num 0)] := by
    show dictSet [] "a" (.num (0 + 0)) = [("a", .num 0)]
    norm_num [dictSet, dictHas]
  have h2 : remove_item [("a", PyVal.num 0)] "b" (.num 1) =
      ([("a", PyVal.num 0)], some (.notFound "b")) := by
    have hg : dictGet [("a", PyVal.num 0)] "b" = Option.none := by decide
    simp [remove_item, hg]
  rw [h1, h2]
  refine ⟨rfl, ?_⟩
  intro h
  have hz := h ("a", .num 0) (by simp)
  simp only [pyLeZero] at hz
  norm_num at hz

/-- C8 amended: after a `remove_item` that reports no condition (so the
subtraction was performed), the entry for the removed item itself never
persists with quantity `≤ 0` — it is deleted instead — while every other
item's entry is untouched, so a pre-existing non-positive entry (creatable
by `add_item`) can persist through a remove operation. -/
theorem remove_item_target_not_nonpos (st : Dict) (item : String) (qty : PyVal)
    (hsucc : (remove_item st item qty).2 = Option.none) :
    (∀ v, dictGet (remove_item st item qty).1 item = some v → pyLeZero v = false) ∧
    (∀ j, j ≠ item → dictGet (remove_item st item qty).1 j = dictGet st j) := by
  cases hg : dictGet st item with
  | none => simp [remove_item, hg] at hsucc
  | some v =>
      cases hs : pySub v qty with
      | none => simp [remove_item, hg, hs] at hsucc
      | some v2 =>
          by_cases hb : pyLeZero v2 = true
          · have hrm : (remove_item st item qty).1 =
                dictDel (dictSet st item v2) item := by
              simp [remove_item, hg, hs, hb]
            constructor
            · intro w hw
              rw [hrm, dictGet_del_self] at hw
              exact absurd hw (by simp)
            · intro j hj
              rw [hrm, dictGet_del_other _ _ _ hj, dictGet_set_other st item _ j hj]
          · have hrm : (remove_item st item qty).1 = dictSet st item v2 := by
              simp [remove_item, hg, hs, hb]
            constructor
            · intro w hw
              rw [hrm, dictGet_set_self] at hw
              obtain rfl : v2 = w := Option.some.inj hw
              exact Bool.not_eq_true _ ▸ hb
            · intro j hj
              rw [hrm, dictGet_set_other st item _ j hj]

/-- C8 amended witness: removing 2 from an item stored with quantity 5. -/
theorem remove_item_target_not_nonpos_witness :
    (∀ v, dictGet (remove_item [("a", .num 5)] "a" (.num 2)).1 "a" = some v →
      pyLeZero v = false) ∧
    (∀ j, j ≠ "a" → dictGet (remove_item [("a", .num 5)] "a" (.num 2)).1 j =
      dictGet [("a", .num 5)] j) :=
  remove_item_target_not_nonpos [("a", .num 5)] "a" (.num 2) (by
    have hg : dictGet [("a", PyVal.num 5)] "a" = some (.num 5) := by decide
    have h3 : ¬ ((5 : ℚ) - 2 ≤ 0) := by norm_num
    simp [remove_item, hg, pySub, pyLeZero, h3])

/-- C9: `add_item` performs no sign check and never deletes: a successful
add whose resulting total is `≤ 0` raises nothing and leaves the entry in
the mapping with that non-positive total, visible to `get_qty` (via
`dictGet`), to `check_low_items` for any threshold above the total, and to
iteration (membership); every previously present item stays present. -/
theorem add_item_keeps_nonpositive (st : Dict) (s : String) (q : ℚ)
    (logs : List String) (ts : String) (hnum : AllNum st)
    (hle : qtyOf st s + q ≤ 0) :
    (add_item st (.str s) (.num q) logs ts).2.2 = Option.none ∧
    dictGet (add_item st (.str s) (.num q) logs ts).1 s =
      some (.num (qtyOf st s + q)) ∧
    (s, PyVal.num (qtyOf st s + q)) ∈ (add_item st (.str s) (.num q) logs ts).1 ∧
    (∀ t : ℚ, qtyOf st s + q < t →
      ∃ l, check_low_items (add_item st (.str s) (.num q) logs ts).1 t = .ok l ∧
        s ∈ l) ∧
    (∀ j, dictGet st j ≠ Option.none →
      dictGet (add_item st (.str s) (.num q) logs ts).1 j ≠ Option.none) := by
  have hadd : (add_item st (.str s) (.num q) logs ts).1 =
      dictSet st s (.num (qtyOf st s + q)) ∧
      (add_item st (.str s) (.num q) logs ts).2.2 = Option.none := by
    cases hg : dictGet st s with
    | none => simp [add_item, hg, pyAdd, qtyOf]
    | some v =>
        obtain ⟨p, rfl⟩ := (isNum_iff v).1 (hnum _ (mem_of_dictGet_eq_some st s v hg))
        simp [add_item, hg, pyAdd, qtyOf]
  obtain ⟨hst, hok⟩ := hadd
  have hget : dictGet (add_item st (.str s) (.num q) logs ts).1 s =
      some (.num (qtyOf st s + q)) := by
    rw [hst]
    exact dictGet_set_self _ _ _
  refine ⟨hok, hget, ?_, ?_, ?_⟩
  · rw [hst]
    exact mem_dictSet_self _ _ _
  · intro t ht
    have hnum' : AllNum (add_item st (.str s) (.num q) logs ts).1 := by
      rw [hst]
      exact allNum_dictSet_num st s _ hnum
    refine ⟨_, check_low_items_eq_lowNames _ t hnum', ?_⟩
    refine (mem_lowNames_iff_exists _ t s).2 ⟨.num (qtyOf st s + q), ?_, ?_⟩
    · rw [hst]
      exact mem_dictSet_self _ _ _
    · simpa [numOf] using ht
  · intro j hj
    by_cases hjs : j = s
    · subst hjs
      rw [hget]
      simp
    · rw [hst, dictGet_set_other st s _ j hjs]
      exact hj

/-- C9 witness: adding -3 to an empty inventory stores the entry
`("a", -3)`, which every visibility conjunct then concerns. -/
theorem add_item_keeps_nonpositive_witness :
    (add_item [] (.str "a") (.num (-3)) [] "t").2.2 = Option.none ∧
    dictGet (add_item [] (.str "a") (.num (-3)) [] "t").1 "a" =
      some (.num (qtyOf [] "a" + (-3))) ∧
    ("a", PyVal.num (qtyOf [] "a" + (-3))) ∈
      (add_item [] (.str "a") (.num (-3)) [] "t").1 ∧
    (∀ t : ℚ, qtyOf [] "a" + (-3) < t →
      ∃ l, check_low_items (add_item [] (.str "a") (.num (-3)) [] "t").1 t = .ok l ∧
        "a" ∈ l) ∧
    (∀ j, dictGet [] j ≠ Option.none →
      dictGet (add_item [] (.str "a") (.num (-3)) [] "t").1 j ≠ Option.none) :=
  add_item_keeps_nonpositive [] "a" (-3) [] "t" (by decide) (by norm_num [qtyOf, dictGet])

theorem dictOfJsonEntries_cons (k : String) (j : Json) (rest : List (String × Json)) :
    dictOfJsonEntries ((k, j) :: rest) =
      match valOfJson j, dictOfJsonEntries rest with
      | some v, some d => some ((k, v) :: d)
      | _, _ => Option.none := rfl

/-- Reading back the JSON image of a mapping recovers the mapping exactly
(`valOfJson` inverts `jsonOfVal` on every storable value). -/
theorem dictOfJsonEntries_map (st : Dict) :
    dictOfJsonEntries (st.map fun p => (p.1, jsonOfVal p.2)) = some st := by
  induction st with
  | nil => rfl
  | cons p rest ih =>
      obtain ⟨k, v⟩ := p
      cases v <;>
        · simp only [List.map_cons]
          rw [dictOfJsonEntries_cons, ih]
          rfl

/-- C2: for every mapping of text keys to numeric values (empty included),
`save(path)` followed by `load(path)` yields the saved mapping back: the
loaded document is exactly the written JSON image, without a diagnostic,
and decoding that image gives the original mapping. -/
theorem save_load_roundtrip (st : Dict) (fs : FS) (path : String)
    (_hnum : AllNum st) (_hnd : KeysNodup st) :
    load_data (save_data st fs path) path = (jsonOfDict st, Option.none) ∧
    dictOfJson (jsonOfDict st) = some st := by
  constructor
  · simp [load_data, save_data]
  · show dictOfJsonEntries (st.map fun p => (p.1, jsonOfVal p.2)) = some st
    exact dictOfJsonEntries_map st

/-- C2 witness: a one-entry numeric mapping on an otherwise empty
filesystem. -/
theorem save_load_roundtrip_witness :
    load_data (save_data [("a", .num 2)] (fun _ => Option.none) "inventory.json")
        "inventory.json" = (jsonOfDict [("a", .num 2)], Option.none) ∧
    dictOfJson (jsonOfDict [("a", .num 2)]) = some [("a", .num 2)] :=
  save_load_roundtrip [("a", .num 2)] (fun _ => Option.none) "inventory.json"
    (by decide) (by decide)

/-- C7: `load(path)` on a missing file, or on a file that does not parse as
JSON, returns the empty mapping with the corresponding reported condition
("file not found" / "decode error"); its return type carries no exception. -/
theorem load_data_missing_or_invalid (fs : FS) (path : String)
    (h : fs path = Option.none ∨ fs path = some .invalidText) :
    (load_data fs path).1 = Json.obj [] ∧
    (fs path = Option.none → (load_data fs path).2 = some (.fileNotFound path)) ∧
    (fs path = some .invalidText → (load_data fs path).2 = some (.decodeError path)) := by
  rcases h with h | h <;> simp [load_data, h]

/-- C7 witness: loading the default path from an empty filesystem. -/
theorem load_data_missing_or_invalid_witness :
    (load_data (fun _ => Option.none) "inventory.json").1 = Json.obj [] ∧
    ((fun _ => Option.none : FS) "inventory.json" = Option.none →
      (load_data (fun _ => Option.none) "inventory.json").2 =
        some (.fileNotFound "inventory.json")) ∧
    ((fun _ => Option.none : FS) "inventory.json" = some .invalidText →
      (load_data (fun _ => Option.none) "inventory.json").2 =
        some (.decodeError "inventory.json")) :=
  load_data_missing_or_invalid (fun _ => Option.none) "inventory.json" (Or.inl rfl)

/-- C10: `load(path)` on a file holding any syntactically valid JSON
document returns that parsed document verbatim, with no diagnostic and no
schema validation — arrays, strings, numbers and arbitrary objects
included. -/
theorem load_data_verbatim (fs : FS) (path : String) (j : Json)
    (h : fs path = some (.jsonText j)) :
    load_data fs path = (j, Option.none) := by
  simp [load_data, h]

/-- C10 witness: a file holding a top-level array is returned unchanged. -/
theorem load_data_verbatim_witness :
    load_data (fun _ => some (.jsonText (.arr [.num 1, .str "x"]))) "f" =
      (Json.arr [.num 1, .str "x"], Option.none) :=
  load_data_verbatim (fun _ => some (.jsonText (.arr [.num 1, .str "x"]))) "f"
    (.arr [.num 1, .str "x"]) rfl

end Inventory
